import Mathlib

/-!
Shallow embedding of `src/src/lib.rs` (crate `libfin`): the three indicator
functions `calculate_rsi`, `calculate_ema`, `calculate_macd` and the error
type `IndicatorError`.  Prices (`f64` in the source) are modelled as exact
rationals `ℚ`; `ndarray` one-dimensional arrays are modelled as `List ℚ`.
Rust `usize` subtractions and indexing that can abort the process (overflow
in debug builds, wrap-around followed by an out-of-bounds access in release
builds) are modelled by an explicit `panicked` outcome.
-/

/-- Error type for equity indicators (`IndicatorError` in src/src/lib.rs),
a single variant `NotEnoughData` carrying a message string. -/
inductive IndicatorError where
  | NotEnoughData (msg : String)
  deriving DecidableEq, Repr

/-- Outcome of a Rust function returning `Result`: a success value, an error
value, or an abnormal abort of the process (a panic from usize underflow or
an out-of-bounds index). -/
inductive RResult (α : Type) where
  | ok (a : α)
  | err (e : IndicatorError)
  | panicked
  deriving DecidableEq, Repr

/-- Body of the `for i in window..prices.len()` loop of `calculate_ema`
(src/src/lib.rs lines 115-121), processing the remaining prices
`prices[window..]`.  At the iteration for input index `i` the Rust code reads
`ema_values[i - window]`; at that point `ema_values` has exactly
`i - window + 1` elements (the seed plus one pushed value per earlier
iteration), so the read is always in bounds and returns the most recently
pushed value, carried here as `prev`. -/
def emaLoop (smoothing : ℚ) (prev : ℚ) : List ℚ → List ℚ
  | [] => []
  | p :: ps =>
    let e := (p - prev) * smoothing + prev
    e :: emaLoop smoothing e ps

/-- Embedding of `calculate_ema` (src/src/lib.rs lines 97-122).  The function
performs no fallible indexing (see `emaLoop`), so its result is `Except`
rather than `RResult`: it either errors on short input or returns the seeded
recurrence values. -/
def calculate_ema (prices : List ℚ) (window : ℕ) : Except IndicatorError (List ℚ) :=
  if prices.length < window then
    .error (.NotEnoughData "`prices` must have at least `window` items")
  else
    let smoothing : ℚ := 2 / ((window : ℚ) + 1)
    let sma : ℚ := (prices.take window).sum / (window : ℚ)
    .ok (sma :: emaLoop smoothing sma (prices.drop window))

theorem emaLoop_length (smoothing prev : ℚ) (l : List ℚ) :
    (emaLoop smoothing prev l).length = l.length := by
  induction l generalizing prev with
  | nil => rfl
  | cons p ps ih => simp [emaLoop, ih]

theorem emaLoop_getElem? (smoothing prev : ℚ) (l : List ℚ) (k : ℕ)
    (hk : k < l.length) :
    (prev :: emaLoop smoothing prev l)[k + 1]? =
      some ((l[k]?.getD 0 - (prev :: emaLoop smoothing prev l)[k]?.getD 0) * smoothing
        + (prev :: emaLoop smoothing prev l)[k]?.getD 0) := by
  induction l generalizing prev k with
  | nil => simp at hk
  | cons p ps ih =>
    cases k with
    | zero => simp [emaLoop]
    | succ k =>
      have hk' : k < ps.length := by simpa using hk
      have := ih ((p - prev) * smoothing + prev) k hk'
      simpa [emaLoop] using this

/-- C1: for `window ≥ 1` and `len(prices) ≥ window`, `calculate_ema` returns
`Ok` of a sequence of length `len(prices) - window + 1` whose first element is
the arithmetic mean of the first `window` prices, and whose element at output
position `i - window + 1` (for each input position `i` from `window` to
`len(prices) - 1`) equals `(price[i] - prev) * (2 / (window + 1)) + prev`
where `prev` is the previously produced output value. -/
theorem calculate_ema_correct (prices : List ℚ) (window : ℕ)
    (hw : 1 ≤ window) (hlen : window ≤ prices.length) :
    ∃ out, calculate_ema prices window = .ok out ∧
      out.length = prices.length - window + 1 ∧
      out[0]? = some ((prices.take window).sum / (window : ℚ)) ∧
      ∀ i, window ≤ i → i < prices.length →
        out[i - window + 1]? =
          some ((prices[i]?.getD 0 - out[i - window]?.getD 0) * (2 / ((window : ℚ) + 1))
            + out[i - window]?.getD 0) := by
  have hnot : ¬ prices.length < window := by omega
  refine ⟨((prices.take window).sum / (window : ℚ)) ::
      emaLoop (2 / ((window : ℚ) + 1)) ((prices.take window).sum / (window : ℚ))
        (prices.drop window), ?_, ?_, ?_, ?_⟩
  · simp [calculate_ema, hnot]
  · simp [emaLoop_length]
  · simp
  · intro i hi hilen
    have hk : i - window < (prices.drop window).length := by
      simp
      omega
    have h2 := emaLoop_getElem? (2 / ((window : ℚ) + 1))
      ((prices.take window).sum / (window : ℚ)) (prices.drop window) (i - window) hk
    have h3 : (prices.drop window)[i - window]? = prices[i]? := by
      rw [List.getElem?_drop]
      congr 1
      omega
    rw [h2, h3]

/-- Witness for C1 at `prices = [1,2,3,4,5]`, `window = 3`. -/
theorem calculate_ema_correct_witness :
    ∃ out, calculate_ema [(1:ℚ),2,3,4,5] 3 = .ok out ∧
      out.length = ([(1:ℚ),2,3,4,5]).length - 3 + 1 ∧
      out[0]? = some ((([(1:ℚ),2,3,4,5]).take 3).sum / ((3:ℕ) : ℚ)) ∧
      ∀ i, 3 ≤ i → i < ([(1:ℚ),2,3,4,5]).length →
        out[i - 3 + 1]? =
          some ((([(1:ℚ),2,3,4,5])[i]?.getD 0 - out[i - 3]?.getD 0) * (2 / (((3:ℕ) : ℚ) + 1))
            + out[i - 3]?.getD 0) :=
  calculate_ema_correct [1,2,3,4,5] 3 (by norm_num) (by norm_num)

/-- Body of the `for i in window..prices.len()` loop of `calculate_rsi`
(src/src/lib.rs lines 60-78), processing the list of loop indices.  The Rust
code first evaluates `gains[i - 1]` and `losses[i - 1]`; when `i = 0` the
usize subtraction aborts the process (overflow panic in debug builds,
wrap-around to an out-of-bounds index panic in release builds), and an
out-of-range index likewise panics, modelled by the `panicked` outcome. -/
def rsiLoop (gains losses : List ℚ) (window : ℕ)
    (avg_gain avg_loss : ℚ) : List ℕ → RResult (List ℚ)
  | [] => .ok []
  | i :: rest =>
    match i with
    | 0 => .panicked
    | j + 1 =>
      match gains[j]?, losses[j]? with
      | some current_gain, some current_loss =>
        let ag := (avg_gain * ((window : ℚ) - 1) + current_gain) / (window : ℚ)
        let al := (avg_loss * ((window : ℚ) - 1) + current_loss) / (window : ℚ)
        let rs_rsi : ℚ := if al > 0 then 100 - 100 / (1 + ag / al) else 100
        match rsiLoop gains losses window ag al rest with
        | .ok vs => .ok (rs_rsi :: vs)
        | r => r
      | _, _ => .panicked

/-- Embedding of `calculate_rsi` (src/src/lib.rs lines 36-81).  The slice
expression `prices.slice(s![1..]) - prices.slice(s![..-1])` is elementwise
subtraction of two views of equal length `len - 1`.  In the branch where
`avg_loss > 0` fails, the Rust code sets `rs = f64::INFINITY` and computes
`rsi = 100.0 - (100.0 / (1.0 + rs))`; in IEEE-754 arithmetic
`100.0 / (1.0 + inf) = 0.0` exactly, so the value pushed is exactly `100.0`,
embedded as the `else 100` branch inside `rsiLoop`. -/
def calculate_rsi (prices : List ℚ) (window : ℕ) : RResult (List ℚ) :=
  if prices.length ≤ window then
    .err (.NotEnoughData "Not enough data points to caluclate RSI")
  else
    let price_changes := List.zipWith (fun a b => a - b) (prices.drop 1) prices.dropLast
    let gains := price_changes.map (fun x => if x > 0 then x else 0)
    let losses := price_changes.map (fun x => if x < 0 then -x else 0)
    let avg_gain := (gains.take window).sum / (window : ℚ)
    let avg_loss := (losses.take window).sum / (window : ℚ)
    rsiLoop gains losses window avg_gain avg_loss
      (List.range' window (prices.length - window))

/-- Reference algorithm, step 1 of the spec: price differences
`delta[i] = price[i+1] - price[i]` for `i` in `[0, len(prices) - 1)`. -/
def refDeltas (prices : List ℚ) : List ℚ :=
  (List.range (prices.length - 1)).map (fun i => prices[i + 1]?.getD 0 - prices[i]?.getD 0)

/-- Reference algorithm, step 2 of the spec: gains `max(delta, 0)`. -/
def refGains (prices : List ℚ) : List ℚ :=
  (refDeltas prices).map (fun d => max d 0)

/-- Reference algorithm, step 2 of the spec: losses `max(-delta, 0)`. -/
def refLosses (prices : List ℚ) : List ℚ :=
  (refDeltas prices).map (fun d => max (-d) 0)

/-- Reference algorithm, steps 3 and 4 of the spec: the Wilder smoothed
average of `vals` (gains or losses).  `refAvg window vals 0` is the seed, the
mean of the first `window` values; `refAvg window vals (j+1)` applies the
recurrence `avg = (avg * (window - 1) + current) / window` with
`current = vals[i - 1]` for price index `i = window + j`. -/
def refAvg (window : ℕ) (vals : List ℚ) : ℕ → ℚ
  | 0 => (vals.take window).sum / (window : ℚ)
  | j + 1 => (refAvg window vals j * ((window : ℚ) - 1) + vals[window + j - 1]?.getD 0)
      / (window : ℚ)

/-- Reference algorithm, step 5 of the spec: `RS = avg_gain / avg_loss` when
`avg_loss > 0`, else `RS = +infinity`; `RSI = 100 - 100/(1 + RS)`, which
evaluates to `100` when `RS = +infinity`. -/
def refRsiOf (avg_gain avg_loss : ℚ) : ℚ :=
  if avg_loss > 0 then 100 - 100 / (1 + avg_gain / avg_loss) else 100

/-- Reference RSI output value at output position `j` (price index
`window + j`): computed from the Wilder averages after `j + 1` recurrence
steps. -/
def refRsiAt (prices : List ℚ) (window : ℕ) (j : ℕ) : ℚ :=
  refRsiOf (refAvg window (refGains prices) (j + 1))
    (refAvg window (refLosses prices) (j + 1))

/-- Reference RSI output sequence: one value per price index from `window` to
`len(prices) - 1`, hence length `len(prices) - window`. -/
def refRsi (prices : List ℚ) (window : ℕ) : List ℚ :=
  (List.range (prices.length - window)).map (refRsiAt prices window)

theorem zipWith_sub_eq_refDeltas (prices : List ℚ) :
    List.zipWith (fun a b => a - b) (prices.drop 1) prices.dropLast = refDeltas prices := by
  apply List.ext_getElem
  · simp [refDeltas]
  · intro i h1 h2
    have hi : i < prices.length - 1 := by
      simpa [refDeltas] using h2
    simp only [refDeltas, List.getElem_map, List.getElem_range, List.getElem_zipWith,
      List.getElem_drop, List.getElem_dropLast]
    rw [List.getElem?_eq_getElem (by omega), List.getElem?_eq_getElem (by omega)]
    simp [Nat.add_comm]

theorem gain_fun_eq : (fun x : ℚ => if x > 0 then x else 0) = fun d : ℚ => max d 0 := by
  funext x
  rcases le_or_lt x 0 with h | h
  · rw [if_neg (not_lt.mpr h), max_eq_right h]
  · rw [if_pos h, max_eq_left h.le]

theorem loss_fun_eq : (fun x : ℚ => if x < 0 then -x else 0) = fun d : ℚ => max (-d) 0 := by
  funext x
  rcases lt_or_le x 0 with h | h
  · rw [if_pos h, max_eq_left (by linarith : (0:ℚ) ≤ -x)]
  · rw [if_neg (not_lt.mpr h), max_eq_right (neg_nonpos.mpr h)]

theorem rsiLoop_eq (gains losses : List ℚ) (window : ℕ) (hw : 1 ≤ window)
    (hll : losses.length = gains.length) :
    ∀ n j, window + j + n ≤ gains.length + 1 →
    rsiLoop gains losses window (refAvg window gains j) (refAvg window losses j)
        (List.range' (window + j) n) =
      .ok ((List.range' j n).map (fun t =>
        refRsiOf (refAvg window gains (t + 1)) (refAvg window losses (t + 1)))) := by
  intro n
  induction n with
  | zero =>
    intro j hj
    simp [rsiLoop]
  | succ n ih =>
    intro j hj
    rw [List.range'_succ, List.range'_succ]
    obtain ⟨m, hm⟩ : ∃ m, window + j = m + 1 := ⟨window + j - 1, by omega⟩
    have hmg : m < gains.length := by omega
    have hml : m < losses.length := by omega
    have hag : (refAvg window gains j * ((window : ℚ) - 1) + gains[m]) / (window : ℚ)
        = refAvg window gains (j + 1) := by
      rw [refAvg, show window + j - 1 = m by omega, List.getElem?_eq_getElem hmg]
      simp
    have hal : (refAvg window losses j * ((window : ℚ) - 1) + losses[m]) / (window : ℚ)
        = refAvg window losses (j + 1) := by
      rw [refAvg, show window + j - 1 = m by omega, List.getElem?_eq_getElem hml]
      simp
    have hrec := ih (j + 1) (by omega)
    rw [hm]
    simp only [rsiLoop, List.getElem?_eq_getElem hmg, List.getElem?_eq_getElem hml]
    rw [hag, hal, show m + 1 + 1 = window + (j + 1) by omega, hrec]
    simp [refRsiOf]

theorem calculate_rsi_eq_refRsi (prices : List ℚ) (window : ℕ)
    (hw : 1 ≤ window) (hlen : window < prices.length) :
    calculate_rsi prices window = .ok (refRsi prices window) := by
  have hnot : ¬ prices.length ≤ window := by omega
  have hgains : (List.zipWith (fun a b => a - b) (prices.drop 1) prices.dropLast).map
      (fun x : ℚ => if x > 0 then x else 0) = refGains prices := by
    rw [zipWith_sub_eq_refDeltas, refGains, gain_fun_eq]
  have hlosses : (List.zipWith (fun a b => a - b) (prices.drop 1) prices.dropLast).map
      (fun x : ℚ => if x < 0 then -x else 0) = refLosses prices := by
    rw [zipWith_sub_eq_refDeltas, refLosses, loss_fun_eq]
  have hgl : (refGains prices).length = prices.length - 1 := by
    simp [refGains, refDeltas]
  have hll : (refLosses prices).length = (refGains prices).length := by
    simp [refGains, refLosses]
  have h0 := rsiLoop_eq (refGains prices) (refLosses prices) window hw hll
    (prices.length - window) 0 (by omega)
  simp only [calculate_rsi, if_neg hnot, hgains, hlosses]
  simpa [refRsi, refRsiAt, List.range_eq_range', refAvg] using h0

theorem getD_nonneg_of_forall (vals : List ℚ) (h : ∀ x ∈ vals, 0 ≤ x) (i : ℕ) :
    0 ≤ vals[i]?.getD 0 := by
  cases hv : vals[i]? with
  | none => simp
  | some v =>
    have : v ∈ vals := List.getElem?_mem hv
    simpa using h v this

theorem refAvg_nonneg (vals : List ℚ) (window : ℕ) (hw : 1 ≤ window)
    (h : ∀ x ∈ vals, 0 ≤ x) : ∀ j, 0 ≤ refAvg window vals j := by
  intro j
  induction j with
  | zero =>
    rw [refAvg]
    apply div_nonneg _ (by positivity)
    apply List.sum_nonneg
    intro x hx
    exact h x (List.take_subset window vals hx)
  | succ j ih =>
    rw [refAvg]
    apply div_nonneg _ (by positivity)
    have h1 : (0:ℚ) ≤ (window : ℚ) - 1 := by
      have : (1:ℚ) ≤ (window : ℚ) := by exact_mod_cast hw
      linarith
    have h2 := getD_nonneg_of_forall vals h (window + j - 1)
    nlinarith

theorem refRsiOf_bounds (ag al : ℚ) (hag : 0 ≤ ag) :
    0 ≤ refRsiOf ag al ∧ refRsiOf ag al ≤ 100 := by
  rw [refRsiOf]
  split
  · rename_i hal
    have hx : 0 ≤ ag / al := div_nonneg hag (le_of_lt hal)
    have h1 : (0:ℚ) ≤ 100 / (1 + ag / al) := by positivity
    have h2 : 100 / (1 + ag / al) ≤ 100 := by
      apply div_le_self (by norm_num)
      linarith
    constructor <;> linarith
  · norm_num

theorem refGains_nonneg (prices : List ℚ) : ∀ x ∈ refGains prices, 0 ≤ x := by
  intro x hx
  simp only [refGains, List.mem_map] at hx
  obtain ⟨d, _, rfl⟩ := hx
  exact le_max_right d 0

theorem refLosses_nonneg (prices : List ℚ) : ∀ x ∈ refLosses prices, 0 ≤ x := by
  intro x hx
  simp only [refLosses, List.mem_map] at hx
  obtain ⟨d, _, rfl⟩ := hx
  exact le_max_right (-d) 0

/-- C2: for `window ≥ 1` and `len(prices) > window`, `calculate_rsi` returns
`Ok` of exactly the sequence defined by the five-step reference algorithm of
the spec: deltas, gains/losses as `max(delta, 0)` / `max(-delta, 0)`, seed
averages over the first `window` deltas, the Wilder recurrence
`avg = (avg * (window - 1) + current) / window` driven by `gains[i-1]` and
`losses[i-1]` for price indices `i` from `window` to `len(prices) - 1`, and
`RSI = 100 - 100/(1 + RS)` with `RS = avg_gain / avg_loss` when
`avg_loss > 0` and `RSI = 100` when `RS` would be `+infinity`. -/
theorem calculate_rsi_correct (prices : List ℚ) (window : ℕ)
    (hw : 1 ≤ window) (hlen : window < prices.length) :
    calculate_rsi prices window = .ok (refRsi prices window) :=
  calculate_rsi_eq_refRsi prices window hw hlen

/-- Witness for C2 at `prices = [1,2,3,4,5]`, `window = 3`. -/
theorem calculate_rsi_correct_witness :
    calculate_rsi [(1:ℚ),2,3,4,5] 3 = .ok (refRsi [(1:ℚ),2,3,4,5] 3) :=
  calculate_rsi_correct [1,2,3,4,5] 3 (by norm_num) (by norm_num)

/-- C6: for `window ≥ 1` and `len(prices) > window`, `calculate_rsi` returns
`Ok` of a sequence of length `len(prices) - window` every element of which
lies in the closed interval `[0, 100]`. -/
theorem calculate_rsi_bounds (prices : List ℚ) (window : ℕ)
    (hw : 1 ≤ window) (hlen : window < prices.length) :
    ∃ out, calculate_rsi prices window = .ok out ∧
      out.length = prices.length - window ∧
      ∀ x ∈ out, 0 ≤ x ∧ x ≤ 100 := by
  refine ⟨refRsi prices window, calculate_rsi_eq_refRsi prices window hw hlen, ?_, ?_⟩
  · simp [refRsi]
  · intro x hx
    simp only [refRsi, List.mem_map, List.mem_range] at hx
    obtain ⟨t, _, rfl⟩ := hx
    exact refRsiOf_bounds _ _
      (refAvg_nonneg (refGains prices) window hw (refGains_nonneg prices) (t + 1))

/-- Witness for C6 at `prices = [1,2,3,4,5]`, `window = 3`. -/
theorem calculate_rsi_bounds_witness :
    ∃ out, calculate_rsi [(1:ℚ),2,3,4,5] 3 = .ok out ∧
      out.length = ([(1:ℚ),2,3,4,5]).length - 3 ∧
      ∀ x ∈ out, 0 ≤ x ∧ x ≤ 100 :=
  calculate_rsi_bounds [1,2,3,4,5] 3 (by norm_num) (by norm_num)

theorem refLosses_eq_zero (prices : List ℚ) (hmono : List.Chain' (· ≤ ·) prices) :
    ∀ x ∈ refLosses prices, x = 0 := by
  intro x hx
  simp only [refLosses, refDeltas, List.map_map, List.mem_map, List.mem_range,
    Function.comp] at hx
  obtain ⟨i, hi, rfl⟩ := hx
  have hip : i < prices.length := by omega
  have hip1 : i + 1 < prices.length := by omega
  have h1 := List.chain'_iff_get.mp hmono i (by omega)
  have h2 : prices[i] ≤ prices[i + 1] := by
    simpa [List.get_eq_getElem] using h1
  rw [List.getElem?_eq_getElem hip1, List.getElem?_eq_getElem hip]
  simp only [Option.getD_some]
  rw [max_eq_right (by linarith)]

theorem refAvg_eq_zero (vals : List ℚ) (window : ℕ) (h : ∀ x ∈ vals, x = 0) :
    ∀ j, refAvg window vals j = 0 := by
  intro j
  induction j with
  | zero =>
    rw [refAvg, List.sum_eq_zero, zero_div]
    intro x hx
    exact h x (List.take_subset window vals hx)
  | succ j ih =>
    rw [refAvg, ih]
    have hz : vals[window + j - 1]?.getD 0 = 0 := by
      cases hv : vals[window + j - 1]? with
      | none => simp
      | some v => simpa using h v (List.getElem?_mem hv)
    rw [hz]
    simp

/-- C5: for `window ≥ 1`, `len(prices) > window`, and a monotonically
non-decreasing price sequence (every adjacent change non-negative),
`calculate_rsi` returns `Ok` (neither an error nor an abnormal value) and
every element of the returned sequence equals exactly `100`. -/
theorem calculate_rsi_monotone_100 (prices : List ℚ) (window : ℕ)
    (hw : 1 ≤ window) (hlen : window < prices.length)
    (hmono : List.Chain' (· ≤ ·) prices) :
    ∃ out, calculate_rsi prices window = .ok out ∧
      out.length = prices.length - window ∧
      ∀ x ∈ out, x = 100 := by
  refine ⟨refRsi prices window, calculate_rsi_eq_refRsi prices window hw hlen,
    by simp [refRsi], ?_⟩
  intro x hx
  simp only [refRsi, List.mem_map, List.mem_range] at hx
  obtain ⟨t, _, rfl⟩ := hx
  rw [refRsiAt, refAvg_eq_zero (refLosses prices) window
    (refLosses_eq_zero prices hmono) (t + 1)]
  simp [refRsiOf]

/-- Witness for C5 at `prices = [1,2,3,4,5]`, `window = 3`, including the
concrete output `[100, 100]` named by the claim. -/
theorem calculate_rsi_monotone_100_witness :
    calculate_rsi [(1:ℚ),2,3,4,5] 3 = .ok [100, 100] ∧
    (∃ out, calculate_rsi [(1:ℚ),2,3,4,5] 3 = .ok out ∧
      out.length = ([(1:ℚ),2,3,4,5]).length - 3 ∧
      ∀ x ∈ out, x = 100) :=
  ⟨by norm_num [calculate_rsi, rsiLoop, List.range'_succ],
   calculate_rsi_monotone_100 [1,2,3,4,5] 3 (by norm_num) (by norm_num)
     (by norm_num [List.chain'_cons])⟩

/-- C3: for `window ≥ 1`, `calculate_rsi` returns the `NotEnoughData` error
exactly when `len(prices) ≤ window`, and `calculate_ema` returns the
`NotEnoughData` error exactly when `len(prices) < window`; in each failing
case the function returns the error value itself (no abnormal abort, no
partial output). -/
theorem not_enough_data_conditions (prices : List ℚ) (window : ℕ)
    (hw : 1 ≤ window) :
    ((∃ e, calculate_rsi prices window = .err e) ↔ prices.length ≤ window) ∧
    ((∃ e, calculate_ema prices window = .error e) ↔ prices.length < window) ∧
    (prices.length ≤ window →
      calculate_rsi prices window =
        .err (.NotEnoughData "Not enough data points to caluclate RSI")) ∧
    (prices.length < window →
      calculate_ema prices window =
        .error (.NotEnoughData "`prices` must have at least `window` items")) := by
  refine ⟨⟨?_, ?_⟩, ⟨?_, ?_⟩, ?_, ?_⟩
  · rintro ⟨e, he⟩
    by_contra hnot
    rw [calculate_rsi_eq_refRsi prices window hw (by omega)] at he
    exact RResult.noConfusion he
  · intro h
    exact ⟨_, by rw [calculate_rsi, if_pos h]⟩
  · rintro ⟨e, he⟩
    by_contra hnot
    rw [calculate_ema, if_neg hnot] at he
    exact Except.noConfusion he
  · intro h
    exact ⟨_, by rw [calculate_ema, if_pos h]⟩
  · intro h
    rw [calculate_rsi, if_pos h]
  · intro h
    rw [calculate_ema, if_pos h]

/-- Witness for C3 at `prices = [1,2,3]`, `window = 2`. -/
theorem not_enough_data_conditions_witness :
    ((∃ e, calculate_rsi [(1:ℚ),2,3] 2 = .err e) ↔ ([(1:ℚ),2,3]).length ≤ 2) ∧
    ((∃ e, calculate_ema [(1:ℚ),2,3] 2 = .error e) ↔ ([(1:ℚ),2,3]).length < 2) ∧
    (([(1:ℚ),2,3]).length ≤ 2 →
      calculate_rsi [(1:ℚ),2,3] 2 =
        .err (.NotEnoughData "Not enough data points to caluclate RSI")) ∧
    (([(1:ℚ),2,3]).length < 2 →
      calculate_ema [(1:ℚ),2,3] 2 =
        .error (.NotEnoughData "`prices` must have at least `window` items")) :=
  not_enough_data_conditions [1,2,3] 2 (by norm_num)

/-- C10: `calculate_rsi` is not total at `window = 0`: for every non-empty
price sequence the length guard `len(prices) <= window` passes, and the first
loop iteration at price index `i = 0` evaluates `gains[i - 1]`, whose usize
subtraction underflows and aborts the process instead of returning `Ok` or
`Err`. -/
theorem rsi_window_zero_panics (prices : List ℚ) (h : prices ≠ []) :
    calculate_rsi prices 0 = .panicked := by
  have hlen : 0 < prices.length := List.length_pos.mpr h
  have hnot : ¬ prices.length ≤ 0 := by omega
  obtain ⟨n, hn⟩ : ∃ n, prices.length - 0 = n + 1 := ⟨prices.length - 1, by omega⟩
  simp only [calculate_rsi, if_neg hnot, hn, List.range'_succ]
  rfl

/-- Witness for C10 at `prices = [1]`. -/
theorem rsi_window_zero_panics_witness :
    ([(1:ℚ)] ≠ []) ∧ calculate_rsi [(1:ℚ)] 0 = .panicked :=
  ⟨by simp, rsi_window_zero_panics [1] (by simp)⟩

theorem calculate_ema_ok_elim (prices : List ℚ) (window : ℕ) (out : List ℚ)
    (h : calculate_ema prices window = .ok out) :
    window ≤ prices.length ∧ out.length = prices.length - window + 1 := by
  by_cases hc : prices.length < window
  · rw [calculate_ema, if_pos hc] at h
    exact Except.noConfusion h
  · rw [calculate_ema, if_neg hc] at h
    have hinj := Except.ok.inj h
    refine ⟨by omega, ?_⟩
    rw [← hinj]
    simp [emaLoop_length]

/-- Elementwise subtraction of two `ndarray` one-dimensional arrays (the `-`
operator on `ArrayBase`): Rust panics when the two shapes differ, otherwise
subtracts pointwise. -/
def ndSub (a b : List ℚ) : RResult (List ℚ) :=
  if a.length = b.length then .ok (List.zipWith (fun x y => x - y) a b) else .panicked

/-- Embedding of `calculate_macd` (src/src/lib.rs lines 141-166).  The `?`
operator on each `calculate_ema` call propagates its error unchanged.  The
slice `ema_short.slice(s![long_window - short_window..])` performs a usize
subtraction: when `short_window > long_window` it aborts the process
(overflow panic in debug builds; in release builds the wrapped index is
astronomically larger than the array and the slice panics), and similarly an
out-of-range slice start panics.  The slice
`macd_line.slice(s![macd_line.len() - signal_line.len()..])` likewise panics
when `signal_line` is longer than `macd_line`. -/
def calculate_macd (prices : List ℚ) (short_window long_window signal_window : ℕ) :
    RResult (List ℚ × List ℚ × List ℚ) :=
  match calculate_ema prices short_window with
  | .error e => .err e
  | .ok ema_short =>
    match calculate_ema prices long_window with
    | .error e => .err e
    | .ok ema_long =>
      if long_window < short_window then .panicked
      else if ema_short.length < long_window - short_window then .panicked
      else
        match ndSub (ema_short.drop (long_window - short_window)) ema_long with
        | .err e => .err e
        | .panicked => .panicked
        | .ok macd_line =>
          match calculate_ema macd_line signal_window with
          | .error e => .err e
          | .ok signal_line =>
            if macd_line.length < signal_line.length then .panicked
            else
              let macd_line2 := macd_line.drop (macd_line.length - signal_line.length)
              match ndSub macd_line2 signal_line with
              | .err e => .err e
              | .panicked => .panicked
              | .ok histogram => .ok (macd_line2, signal_line, histogram)

/-- C4: for a successful `calculate_macd` call with
`long_window > short_window ≥ 1` and `signal_window ≥ 1`, the three returned
sequences have equal length, the macd line is the trailing suffix of the
pointwise difference of the aligned short and long EMAs, the signal line is
the EMA of that difference, and each histogram element is
`macd_line[i] - signal_line[i]`. -/
theorem calculate_macd_correct (prices : List ℚ) (sw lw gw : ℕ)
    (hs : 1 ≤ sw) (hsl : sw < lw) (hg : 1 ≤ gw) (m s h : List ℚ)
    (hok : calculate_macd prices sw lw gw = .ok (m, s, h)) :
    ∃ es el macd0,
      calculate_ema prices sw = .ok es ∧
      calculate_ema prices lw = .ok el ∧
      macd0 = List.zipWith (fun a b => a - b) (es.drop (lw - sw)) el ∧
      calculate_ema macd0 gw = .ok s ∧
      m = macd0.drop (macd0.length - s.length) ∧
      m.length = s.length ∧ h.length = s.length ∧
      h = List.zipWith (fun a b => a - b) m s := by
  rw [calculate_macd] at hok
  cases h1 : calculate_ema prices sw with
  | error e =>
    rw [h1] at hok
    exact RResult.noConfusion hok
  | ok es =>
  rw [h1] at hok
  dsimp only at hok
  cases h2 : calculate_ema prices lw with
  | error e =>
    rw [h2] at hok
    exact RResult.noConfusion hok
  | ok el =>
  rw [h2] at hok
  dsimp only at hok
  obtain ⟨hes1, hes2⟩ := calculate_ema_ok_elim prices sw es h1
  obtain ⟨hel1, hel2⟩ := calculate_ema_ok_elim prices lw el h2
  rw [if_neg (show ¬ lw < sw by omega)] at hok
  rw [if_neg (show ¬ es.length < lw - sw by omega)] at hok
  have hlen0 : (es.drop (lw - sw)).length = el.length := by
    simp only [List.length_drop]
    omega
  rw [ndSub, if_pos hlen0] at hok
  dsimp only at hok
  cases h3 : calculate_ema (List.zipWith (fun x y => x - y) (es.drop (lw - sw)) el) gw with
  | error e =>
    rw [h3] at hok
    exact RResult.noConfusion hok
  | ok sl =>
  rw [h3] at hok
  dsimp only at hok
  obtain ⟨hsl1, hsl2⟩ := calculate_ema_ok_elim _ gw sl h3
  have hmlen : (List.zipWith (fun x y => x - y) (es.drop (lw - sw)) el).length = el.length := by
    simp only [List.length_zipWith, List.length_drop]
    omega
  rw [if_neg (show ¬ (List.zipWith (fun x y => x - y) (es.drop (lw - sw)) el).length
      < sl.length by omega)] at hok
  have hlen2 : ((List.zipWith (fun x y => x - y) (es.drop (lw - sw)) el).drop
      ((List.zipWith (fun x y => x - y) (es.drop (lw - sw)) el).length - sl.length)).length
      = sl.length := by
    simp only [List.length_drop]
    omega
  rw [ndSub, if_pos hlen2] at hok
  dsimp only at hok
  have hinj := RResult.ok.inj hok
  have hm : (List.zipWith (fun x y => x - y) (es.drop (lw - sw)) el).drop
      ((List.zipWith (fun x y => x - y) (es.drop (lw - sw)) el).length - sl.length) = m :=
    congrArg Prod.fst hinj
  have hs2 : sl = s := congrArg (fun t => t.2.1) hinj
  have hh : List.zipWith (fun x y => x - y)
      ((List.zipWith (fun x y => x - y) (es.drop (lw - sw)) el).drop
        ((List.zipWith (fun x y => x - y) (es.drop (lw - sw)) el).length - sl.length)) sl = h :=
    congrArg (fun t => t.2.2) hinj
  refine ⟨es, el, _, rfl, rfl, rfl, ?_, ?_, ?_, ?_, ?_⟩
  · rw [← hs2]
    exact h3
  · rw [← hm, ← hs2]
  · rw [← hm, ← hs2]
    simp only [List.length_drop]
    omega
  · rw [← hh, ← hs2]
    simp only [List.length_zipWith, List.length_drop]
    omega
  · rw [← hh, ← hm, ← hs2]

/-- Witness for C4 at `prices = [1,2,3,4,5]`, `short_window = 2`,
`long_window = 4`, `signal_window = 2`, where the result is
`([1], [1], [0])`. -/
theorem calculate_macd_correct_witness :
    ∃ es el macd0,
      calculate_ema [(1:ℚ),2,3,4,5] 2 = .ok es ∧
      calculate_ema [(1:ℚ),2,3,4,5] 4 = .ok el ∧
      macd0 = List.zipWith (fun a b => a - b) (es.drop (4 - 2)) el ∧
      calculate_ema macd0 2 = .ok [1] ∧
      ([(1:ℚ)] : List ℚ) = macd0.drop (macd0.length - ([(1:ℚ)] : List ℚ).length) ∧
      ([(1:ℚ)] : List ℚ).length = ([(1:ℚ)] : List ℚ).length ∧
      ([(0:ℚ)] : List ℚ).length = ([(1:ℚ)] : List ℚ).length ∧
      ([(0:ℚ)] : List ℚ) = List.zipWith (fun a b => a - b) [(1:ℚ)] [(1:ℚ)] :=
  calculate_macd_correct [1,2,3,4,5] 2 4 2 (by norm_num) (by norm_num) (by norm_num)
    [1] [1] [0]
    (by norm_num [calculate_macd, calculate_ema, emaLoop, ndSub])

/-- C7: with `short_window ≤ long_window` and `signal_window ≥ 1`,
`calculate_macd` returns an error exactly when one of its three internal
`calculate_ema` calls fails, and in that case it returns that same error
value unchanged (same variant, same message), short-circuiting at the first
failure with no partial result. -/
theorem macd_error_propagation (prices : List ℚ) (sw lw gw : ℕ)
    (hsl : sw ≤ lw) (hg : 1 ≤ gw) (e : IndicatorError) :
    calculate_macd prices sw lw gw = .err e ↔
      (calculate_ema prices sw = .error e ∨
       ((∃ es, calculate_ema prices sw = .ok es) ∧ calculate_ema prices lw = .error e) ∨
       (∃ es el, calculate_ema prices sw = .ok es ∧ calculate_ema prices lw = .ok el ∧
         calculate_ema (List.zipWith (fun a b => a - b) (es.drop (lw - sw)) el) gw
           = .error e)) := by
  rw [calculate_macd]
  cases h1 : calculate_ema prices sw with
  | error e0 =>
    dsimp only
    simp
  | ok es =>
  dsimp only
  cases h2 : calculate_ema prices lw with
  | error e0 =>
    dsimp only
    simp
  | ok el =>
  dsimp only
  obtain ⟨hes1, hes2⟩ := calculate_ema_ok_elim prices sw es h1
  obtain ⟨hel1, hel2⟩ := calculate_ema_ok_elim prices lw el h2
  rw [if_neg (show ¬ lw < sw by omega)]
  rw [if_neg (show ¬ es.length < lw - sw by omega)]
  have hlen0 : (es.drop (lw - sw)).length = el.length := by
    simp only [List.length_drop]
    omega
  rw [ndSub, if_pos hlen0]
  dsimp only
  cases h3 : calculate_ema (List.zipWith (fun x y => x - y) (es.drop (lw - sw)) el) gw with
  | error e0 =>
    dsimp only
    constructor
    · intro hok
      have he : e0 = e := RResult.err.inj hok
      exact Or.inr (Or.inr ⟨es, el, rfl, rfl, he ▸ h3⟩)
    · rintro (hc | ⟨_, hc⟩ | ⟨es', el', hes', hel', hc⟩)
      · exact Except.noConfusion hc
      · exact Except.noConfusion hc
      · obtain rfl : es = es' := Except.ok.inj hes'
        obtain rfl : el = el' := Except.ok.inj hel'
        rw [h3] at hc
        rw [Except.error.inj hc]
  | ok sl =>
  dsimp only
  obtain ⟨hsl1, hsl2⟩ := calculate_ema_ok_elim _ gw sl h3
  have hmlen : (List.zipWith (fun x y => x - y) (es.drop (lw - sw)) el).length = el.length := by
    simp only [List.length_zipWith, List.length_drop]
    omega
  rw [if_neg (show ¬ (List.zipWith (fun x y => x - y) (es.drop (lw - sw)) el).length
      < sl.length by omega)]
  have hlen2 : ((List.zipWith (fun x y => x - y) (es.drop (lw - sw)) el).drop
      ((List.zipWith (fun x y => x - y) (es.drop (lw - sw)) el).length - sl.length)).length
      = sl.length := by
    simp only [List.length_drop]
    omega
  rw [ndSub, if_pos hlen2]
  dsimp only
  constructor
  · intro hok
    exact RResult.noConfusion hok
  · rintro (hc | ⟨_, hc⟩ | ⟨es', el', hes', hel', hc⟩)
    · exact Except.noConfusion hc
    · exact Except.noConfusion hc
    · obtain rfl : es = es' := Except.ok.inj hes'
      obtain rfl : el = el' := Except.ok.inj hel'
      rw [h3] at hc
      exact Except.noConfusion hc

/-- Witness for C7 at `prices = [1,2]`, `short_window = 2`,
`long_window = 4`, `signal_window = 2`, where the long EMA call fails. -/
theorem macd_error_propagation_witness :
    calculate_macd [(1:ℚ),2] 2 4 2 =
        .err (.NotEnoughData "`prices` must have at least `window` items") ↔
      (calculate_ema [(1:ℚ),2] 2 =
          .error (.NotEnoughData "`prices` must have at least `window` items") ∨
       ((∃ es, calculate_ema [(1:ℚ),2] 2 = .ok es) ∧ calculate_ema [(1:ℚ),2] 4 =
          .error (.NotEnoughData "`prices` must have at least `window` items")) ∨
       (∃ es el, calculate_ema [(1:ℚ),2] 2 = .ok es ∧ calculate_ema [(1:ℚ),2] 4 = .ok el ∧
         calculate_ema (List.zipWith (fun a b => a - b) (es.drop (4 - 2)) el) 2
           = .error (.NotEnoughData "`prices` must have at least `window` items"))) :=
  macd_error_propagation [1,2] 2 4 2 (by norm_num) (by norm_num)
    (.NotEnoughData "`prices` must have at least `window` items")

/-- C9: at the concrete input `prices = [1,2,3,4,5]`, `short_window = 4`,
`long_window = 2` (out of order, with `len(prices) ≥ short_window`), both EMA
calls succeed and the unvalidated alignment step computes
`long_window - short_window` in usize, which underflows and aborts the
computation abnormally instead of returning a `Result`. -/
theorem macd_swapped_windows_panics :
    4 > 2 ∧ ([(1:ℚ),2,3,4,5]).length ≥ 4 ∧
    calculate_macd [(1:ℚ),2,3,4,5] 4 2 2 = .panicked := by
  refine ⟨by norm_num, by norm_num, ?_⟩
  norm_num [calculate_macd, calculate_ema, emaLoop, ndSub]

/-- C8 counterexample: at `prices = [1,2,3,4,5]`, `window = 3` (a valid EMA
input), the EMA output is `[2, 3, 4]`, whose length `3` is
`len(prices) - window + 1`, not `len(prices) - window = 2` as the claim
states for EMA. -/
theorem ema_length_not_len_minus_window :
    calculate_ema [(1:ℚ),2,3,4,5] 3 = .ok [2, 3, 4] ∧
    ¬ ([(2:ℚ), 3, 4] : List ℚ).length = ([(1:ℚ),2,3,4,5]).length - 3 := by
  constructor
  · norm_num [calculate_ema, emaLoop]
  · norm_num

/-- C8 amended: on valid inputs the RSI output length is
`len(prices) - window`, while the EMA output length is
`len(prices) - window + 1` (the seed counts as an extra element). -/
theorem output_length_invariant (prices : List ℚ) (window : ℕ)
    (hw : 1 ≤ window) :
    (window ≤ prices.length → ∃ out, calculate_ema prices window = .ok out ∧
      out.length = prices.length - window + 1) ∧
    (window < prices.length → ∃ out, calculate_rsi prices window = .ok out ∧
      out.length = prices.length - window) := by
  constructor
  · intro h
    have hnot : ¬ prices.length < window := by omega
    refine ⟨_, by rw [calculate_ema, if_neg hnot], ?_⟩
    simp [emaLoop_length]
  · intro h
    exact ⟨refRsi prices window, calculate_rsi_eq_refRsi prices window hw h,
      by simp [refRsi]⟩

/-- Witness for the amended C8 at `prices = [1,2,3,4,5]`, `window = 3`. -/
theorem output_length_invariant_witness :
    (3 ≤ ([(1:ℚ),2,3,4,5]).length → ∃ out, calculate_ema [(1:ℚ),2,3,4,5] 3 = .ok out ∧
      out.length = ([(1:ℚ),2,3,4,5]).length - 3 + 1) ∧
    (3 < ([(1:ℚ),2,3,4,5]).length → ∃ out, calculate_rsi [(1:ℚ),2,3,4,5] 3 = .ok out ∧
      out.length = ([(1:ℚ),2,3,4,5]).length - 3) :=
  output_length_invariant [1,2,3,4,5] 3 (by norm_num)
